import Mathlib

/-!
Shallow embedding of `src/lambda_function.py` (marathon race crawler) and
verification of its specification claims.

Python strings are modelled as Lean `String`, `Optional[str]` as `Option String`,
floats (only inert payload fields: lat/lng/distance_km) as `Option Rat` / `Rat`,
`datetime.date` as `PyDate`.  Python truthiness of strings ("" is falsy) is
modelled explicitly.  All definitions are executable.
-/

/-- Python `\s` whitespace test for the ASCII range (str.strip / re \s). -/
def pyIsSpace (c : Char) : Bool :=
  c = ' ' || c = '\t' || c = '\n' || c = '\x0d' || c = '\x0b' || c = '\x0c'

/-- Python `str.strip()` (default whitespace strip). -/
def pyStrip (s : String) : String :=
  ⟨((s.data.dropWhile pyIsSpace).reverse.dropWhile pyIsSpace).reverse⟩

/-- Python `str.strip(chars)`: strip any of the given characters from both ends. -/
def pyStripChars (set : List Char) (s : String) : String :=
  ⟨((s.data.dropWhile (· ∈ set)).reverse.dropWhile (· ∈ set)).reverse⟩

/-- Auxiliary for `re.sub(r"\s+", " ", s)`: collapse every maximal run of
whitespace into a single space.  The flag records whether the previous
character was part of a whitespace run already replaced. -/
def collapseWsAux : Bool → List Char → List Char
  | _, [] => []
  | prevSpace, c :: cs =>
    if pyIsSpace c then
      if prevSpace then collapseWsAux true cs
      else ' ' :: collapseWsAux true cs
    else c :: collapseWsAux false cs

/-- Python `re.sub(r"\s+", " ", s)`. -/
def collapseWs (s : String) : String := ⟨collapseWsAux false s.data⟩

/-- Boolean test: is `pat` a leading segment of `cs`. -/
def isPreOf : List Char → List Char → Bool
  | [], _ => true
  | _ :: _, [] => false
  | a :: as, b :: bs => a = b && isPreOf as bs

/-- Boolean test: does `cs` contain `pat` as a contiguous segment. -/
def hasSubList (pat : List Char) : List Char → Bool
  | [] => isPreOf pat []
  | c :: cs => isPreOf pat (c :: cs) || hasSubList pat cs

/-- Python `pat in s` substring containment. -/
def strHasSub (s pat : String) : Bool := hasSubList pat.data s.data

/-- Python `str.lower()` (ASCII case folding; every string this program
compares case-insensitively is ASCII). -/
def pyLower (s : String) : String := ⟨s.data.map Char.toLower⟩

/-- Python `<` on strings: lexicographic comparison by code point, a proper
prefix being smaller. -/
def charListLt : List Char → List Char → Bool
  | [], [] => false
  | [], _ :: _ => true
  | _ :: _, [] => false
  | a :: as, b :: bs => if a < b then true else if a = b then charListLt as bs else false

/-- Python `s < t` for strings. -/
def strLtB (s t : String) : Bool := charListLt s.data t.data

/-- Python `s.split(",")` (single-character separator, no collapsing). -/
def splitOnChar (sep : Char) : List Char → List (List Char)
  | [] => [[]]
  | c :: cs =>
    if c = sep then [] :: splitOnChar sep cs
    else
      match splitOnChar sep cs with
      | [] => [[c]]
      | p :: ps => (c :: p) :: ps

/-- Python `s.split(",")`. -/
def pySplitComma (s : String) : List String := (splitOnChar ',' s.data).map (⟨·⟩)

/-- Python `sep.join(xs)`. -/
def joinSep (sep : String) : List String → String
  | [] => ""
  | [x] => x
  | x :: xs => x ++ sep ++ joinSep sep xs

/-- Python truthiness of an optional string: `None` and `""` are falsy. -/
def truthyS : Option String → Bool
  | none => false
  | some s => s ≠ ""

/-- `_normalize_text` (src/lambda_function.py:365-368): `None`/`""` give `None`,
otherwise strip, lowercase and collapse internal whitespace.  Note the result
can be `some ""` (for all-whitespace input), which Python treats as falsy. -/
def _normalize_text : Option String → Option String
  | none => none
  | some s => if s = "" then none else some (collapseWs (pyLower (pyStrip s)))

/-- Characters Python `urlparse` accepts inside a scheme. -/
def schemeCharOk (c : Char) : Bool :=
  c.isAlpha || c.isDigit || c = '+' || c = '-' || c = '.'

/-- Split a char list at the first occurrence of `sep`; `none` if absent. -/
def splitFirst (sep : Char) : List Char → Option (List Char × List Char)
  | [] => none
  | c :: cs =>
    if c = sep then some ([], cs)
    else
      match splitFirst sep cs with
      | some (l, r) => some (c :: l, r)
      | none => none

/-- The scheme-recognition step of `urllib.parse.urlsplit`: if the text before
the first `:` is a nonempty run of scheme characters starting with a letter,
it is the (lowercased) scheme; otherwise there is no scheme. -/
def parseSchemeRest (url : String) : String × String :=
  match splitFirst ':' url.data with
  | some (bef, aft) =>
    if (match bef with | c :: _ => c.isAlpha | [] => false) && bef.all schemeCharOk then
      (⟨bef.map Char.toLower⟩, ⟨aft⟩)
    else ("", url)
  | none => ("", url)

/-- The netloc step of `urllib.parse.urlsplit`: after the scheme, a leading
`//` introduces the netloc, which extends to the first `/`, `?` or `#`. -/
def parseNetlocRest (rest : String) : String × String :=
  match rest.data with
  | '/' :: '/' :: tl =>
    let net := tl.takeWhile (fun c => c ≠ '/' && c ≠ '?' && c ≠ '#')
    (⟨net⟩, ⟨tl.drop net.length⟩)
  | _ => ("", rest)

/-- The parts of `urllib.parse.urlparse` this program reads. -/
structure UrlParts where
  scheme : String
  netloc : String
deriving DecidableEq, Repr

/-- Model of `urllib.parse.urlparse` restricted to the `scheme`/`netloc`
fields, which are all the source consults. -/
def pyUrlparse (url : String) : UrlParts :=
  let sr := parseSchemeRest url
  let nr := parseNetlocRest sr.2
  ⟨sr.1, nr.1⟩

/-- A netloc with an unmatched bracket makes Python `urlparse` raise. -/
def netlocBad (net : String) : Bool :=
  (net.data.contains '[' && !net.data.contains ']') ||
  (net.data.contains ']' && !net.data.contains '[')

/-- `_domain_from_url` (src/lambda_function.py:379-383): netloc lowercased,
`""` when `urlparse` raises. -/
def _domain_from_url (url : String) : String :=
  let p := pyUrlparse url
  if netlocBad p.netloc then "" else pyLower p.netloc

/-- `_source_from_url` (src/lambda_function.py:386-396). -/
def _source_from_url (url : String) : String :=
  let domain := _domain_from_url url
  if strHasSub domain "aims-worldrunning.org" then "AIMS"
  else if strHasSub domain "ahotu.com" then "Ahotu"
  else if strHasSub domain "worldmarathonmajors.com" then "World Marathon Majors"
  else if strHasSub domain "runningintheusa.com" then "Running in the USA"
  else if domain = "" then "unknown" else domain

/-- A calendar date as Python `datetime.date` (year 1-9999, valid month/day). -/
structure PyDate where
  year : Nat
  month : Nat
  day : Nat
deriving DecidableEq, Repr

/-- Gregorian leap year test, as in `datetime`. -/
def isLeapYear (y : Nat) : Bool := y % 4 = 0 && (y % 100 ≠ 0 || y % 400 = 0)

/-- Number of days in a month, as in `datetime`. -/
def daysInMonth (y m : Nat) : Nat :=
  if m = 2 then (if isLeapYear y then 29 else 28)
  else if m = 4 || m = 6 || m = 9 || m = 11 then 30
  else 31

/-- Numeric value of a decimal digit character. -/
def digitVal (c : Char) : Nat := c.toNat - 48

/-- `datetime.date.fromisoformat` on the canonical `YYYY-MM-DD` layout this
program stores: ten characters, digits and two dashes, with calendar
validation (month 1-12, day within the month, year at least 1). -/
def dateFromIso (s : String) : Option PyDate :=
  match s.data with
  | [y1, y2, y3, y4, h1, m1, m2, h2, d1, d2] =>
    if y1.isDigit && y2.isDigit && y3.isDigit && y4.isDigit && h1 = '-' &&
       m1.isDigit && m2.isDigit && h2 = '-' && d1.isDigit && d2.isDigit then
      let y := ((digitVal y1 * 10 + digitVal y2) * 10 + digitVal y3) * 10 + digitVal y4
      let m := digitVal m1 * 10 + digitVal m2
      let d := digitVal d1 * 10 + digitVal d2
      if 1 ≤ y && 1 ≤ m && m ≤ 12 && 1 ≤ d && d ≤ daysInMonth y m then
        some ⟨y, m, d⟩
      else none
    else none
  | _ => none

/-- `_safe_date` (src/lambda_function.py:330-336): `None`/`""` give `None`,
otherwise parse, `None` on failure. -/
def _safe_date : Option String → Option PyDate
  | none => none
  | some s => if s = "" then none else dateFromIso s

/-- Python `date` comparison `a < b` ((year, month, day) lexicographic). -/
def dateLt (a b : PyDate) : Bool :=
  a.year < b.year ||
    (a.year = b.year && (a.month < b.month || (a.month = b.month && a.day < b.day)))

/-- Days before January 1 of the given year (proleptic Gregorian), as in
`datetime.date.toordinal`. -/
def daysBeforeYear (y : Nat) : Nat :=
  (y - 1) * 365 + (y - 1) / 4 - (y - 1) / 100 + (y - 1) / 400

/-- Days in the given year before the first of the given month. -/
def daysBeforeMonth (y m : Nat) : Nat :=
  (List.range (m - 1)).foldl (fun acc i => acc + daysInMonth y (i + 1)) 0

/-- `datetime.date.toordinal`. -/
def toOrdinal (a : PyDate) : Nat :=
  daysBeforeYear a.year + daysBeforeMonth a.year a.month + a.day

/-- `_dates_within_one_day` (src/lambda_function.py:371-376):
`abs((left - right).days) <= 1`, `False` when either side fails to parse. -/
def _dates_within_one_day (left right : Option String) : Bool :=
  match _safe_date left, _safe_date right with
  | some a, some b =>
    max (toOrdinal a) (toOrdinal b) - min (toOrdinal a) (toOrdinal b) ≤ 1
  | _, _ => false

/-- The `Race` dataclass (src/lambda_function.py:44-65). -/
structure Race where
  name : String
  date_start : Option String
  date_end : Option String
  city : Option String
  region : Option String
  country : Option String
  lat : Option Rat
  lng : Option Rat
  distance_km : Rat
  website_url : String
  source : String
  source_event_id : Option String
  description : String
  entry_requirements : String
  last_seen_at : String
  last_verified_at : Option String
  status : String
deriving DecidableEq, Repr

/-- `_is_same_race` (src/lambda_function.py:339-362), with the source's
early returns compiled into nested conditionals and its local variables
(`name_left := _normalize_text(left.name)` and so on) inlined. -/
def _is_same_race (left right : Race) : Bool :=
  if truthyS (_normalize_text (some left.name)) = false ∨
      truthyS (_normalize_text (some right.name)) = false ∨
      _normalize_text (some left.name) ≠ _normalize_text (some right.name) then
    false
  else if truthyS (_normalize_text left.city) = true ∧
      truthyS (_normalize_text right.city) = true ∧
      _normalize_text left.city ≠ _normalize_text right.city then
    false
  else if truthyS (_normalize_text left.country) = true ∧
      truthyS (_normalize_text right.country) = true ∧
      _normalize_text left.country ≠ _normalize_text right.country then
    false
  else if _domain_from_url left.website_url ≠ "" ∧
      _domain_from_url right.website_url ≠ "" ∧
      _domain_from_url left.website_url ≠ _domain_from_url right.website_url then
    false
  else if truthyS left.date_start = true ∧ truthyS right.date_start = true then
    _dates_within_one_day left.date_start right.date_start
  else true

/-- The in-place update `_dedupe_and_filter` performs on a kept record when an
incoming race matches it (src/lambda_function.py:318-322). -/
def mergeRace (existing race : Race) : Race :=
  { existing with
    last_seen_at := race.last_seen_at
    last_verified_at :=
      if truthyS race.last_verified_at then race.last_verified_at
      else existing.last_verified_at
    website_url :=
      if existing.website_url = "" ∧ race.website_url ≠ "" then race.website_url
      else existing.website_url }

/-- One iteration of the inner loop of `_dedupe_and_filter`
(src/lambda_function.py:314-325): update the first matching kept record in
place, or append the race when nothing matches. -/
def mergeIntoList : List Race → Race → List Race
  | [], race => [race]
  | existing :: rest, race =>
    if _is_same_race existing race = true then mergeRace existing race :: rest
    else existing :: mergeIntoList rest race

/-- The past-date filter of `_dedupe_and_filter` (src/lambda_function.py:310-312):
a record survives unless its start date parses and is strictly before `today`. -/
def keptByDateFilter (race : Race) (today : PyDate) : Bool :=
  match _safe_date race.date_start with
  | some d => !dateLt d today
  | none => true

/-- The fold of `_dedupe_and_filter` over the incoming races
(src/lambda_function.py:309-325), accumulating the `unique` list. -/
def dedupeLoop (today : PyDate) : List Race → List Race → List Race
  | acc, [] => acc
  | acc, race :: races =>
    match _safe_date race.date_start with
    | some d =>
      if dateLt d today then dedupeLoop today acc races
      else dedupeLoop today (mergeIntoList acc race) races
    | none => dedupeLoop today (mergeIntoList acc race) races

/-- The sort key of `_dedupe_and_filter` (src/lambda_function.py:327):
`race.date_start or "9999-12-31"` (so `None` and `""` both map to the
sentinel). -/
def sortDateKey (race : Race) : String :=
  match race.date_start with
  | some s => if s = "" then "9999-12-31" else s
  | none => "9999-12-31"

/-- The sort order of `_dedupe_and_filter`: Python tuple comparison on
`(race.date_start or "9999-12-31", race.name.lower())`. -/
def raceKeyLE (a b : Race) : Prop :=
  strLtB (sortDateKey a) (sortDateKey b) = true ∨
    (sortDateKey a = sortDateKey b ∧
      (strLtB (pyLower a.name) (pyLower b.name) = true ∨ pyLower a.name = pyLower b.name))

instance : DecidableRel raceKeyLE := fun a b => by
  unfold raceKeyLE; exact inferInstance

/-- `_dedupe_and_filter` (src/lambda_function.py:306-327): filter past dates,
fold with first-match merge, and stable-sort by `(date key, lowercased name)`.
Python `sorted` is a stable ascending sort, modelled by insertion sort with
the total preorder `raceKeyLE`. -/
def _dedupe_and_filter (races : List Race) (today : PyDate) : List Race :=
  List.insertionSort raceKeyLE (dedupeLoop today [] races)

/-- `_is_full_marathon_name` (src/lambda_function.py:510-516), the source's
local `lowered` inlined. -/
def _is_full_marathon_name (name : String) : Bool :=
  if strHasSub (pyLower name) "marathon" = false then false
  else if pyStrip (pyLower name) = "marathon" then false
  else !strHasSub (pyLower name) "half marathon" && !strHasSub (pyLower name) "half-marathon"

/-- The characters stripped by `name.strip(" -–—|")` in
`_split_location_from_name`. -/
def nameStripSet : List Char := [' ', '-', '–', '—', '|']

/-- The trailing-parenthesis match of `re.search(r"\(([^()]+)\)\s*$", name)`:
returns the paren content and the text before the parenthesis when the name
ends (modulo whitespace) with a parenthesised group free of nested parens. -/
def parenSplit (name : String) : Option (String × String) :=
  match (name.data.reverse.dropWhile pyIsSpace) with
  | ')' :: tl =>
    let inner := tl.takeWhile (fun c => c ≠ '(' && c ≠ ')')
    match tl.drop inner.length with
    | '(' :: before =>
      if inner = [] then none else some (⟨inner.reverse⟩, ⟨before.reverse⟩)
    | _ => none
  | _ => none

/-- Python `name.rsplit(sep, 1)`: split at the last occurrence of `sep`. -/
def lastSplitAux (sep : List Char) : List Char → Option (List Char × List Char)
  | [] => none
  | c :: cs =>
    match lastSplitAux sep cs with
    | some (l, r) => some (c :: l, r)
    | none =>
      if isPreOf sep (c :: cs) then some ([], (c :: cs).drop sep.length) else none

/-- The separator loop of `_split_location_from_name`
(src/lambda_function.py:483-490): try each separator in order; use the first
whose rightmost split leaves a tail containing a comma and no "marathon". -/
def trySeps (name : String) : List String → Option (String × String)
  | [] => none
  | sep :: rest =>
    if strHasSub name sep then
      match lastSplitAux sep.data name.data with
      | some (head, tail) =>
        if strHasSub ⟨tail⟩ "," && !strHasSub (pyLower ⟨tail⟩) "marathon" then
          some (pyStrip ⟨head⟩, pyStrip ⟨tail⟩)
        else trySeps name rest
      | none => trySeps name rest
    else trySeps name rest

/-- Python `[p.strip() for p in s.split(",") if p.strip()]`. -/
def commaParts (s : String) : List String :=
  ((pySplitComma s).map pyStrip).filter (· ≠ "")

/-- `_split_location_from_name` (src/lambda_function.py:473-507).  The Python
`candidate` variable is a string whose emptiness ("" or never set) means "no
candidate found yet"; it is modelled the same way. -/
def _split_location_from_name (name : String) : String × Option String × Option String :=
  if name = "" then (name, none, none)
  else
    let step1 : String × String :=
      match parenSplit name with
      | some (inner, before) => (pyStripChars nameStripSet before, pyStrip inner)
      | none => (name, "")
    let step2 : String × String :=
      if step1.2 = "" then
        match trySeps step1.1 [" - ", " – ", " — ", " | "] with
        | some (head, tail) => (head, tail)
        | none => step1
      else step1
    let step3 : String × String :=
      if step2.2 = "" ∧ strHasSub step2.1 "," then
        let parts := commaParts step2.1
        if 3 ≤ parts.length ∧ strHasSub (pyLower (parts.headD "")) "marathon" then
          (pyStrip (joinSep ", " (parts.take (parts.length - 2))),
           joinSep ", " (parts.drop (parts.length - 2)))
        else step2
      else step2
    if step3.2 = "" then (step3.1, none, none)
    else
      let location_parts := commaParts step3.2
      if location_parts.length < 2 then (step3.1, none, none)
      else (step3.1, location_parts.head?, location_parts.getLast?)

/-- `_should_visit_link` (src/lambda_function.py:535-542), the source's
locals `parsed` and `lower` inlined. -/
def _should_visit_link (base_domain href : String) : Bool :=
  if (pyUrlparse href).scheme ≠ "" ∧ (pyUrlparse href).scheme ∉ ["http", "https"] then false
  else if (pyUrlparse href).netloc ≠ "" ∧ (pyUrlparse href).netloc ≠ base_domain then false
  else
    strHasSub (pyLower href) "marathon" || strHasSub (pyLower href) "race" ||
      strHasSub (pyLower href) "calendar"

/-- The environment's answer to the HTTP GET issued by `_fetch_url`: either a
response (content type header, already-decoded body) or one of the caught
exceptions (`HTTPError`, `URLError`, `TimeoutError`). -/
inductive FetchOutcome where
  | success (contentType : String) (body : String)
  | failure
deriving DecidableEq, Repr

/-- `_fetch_url` (src/lambda_function.py:545-555) applied to the outcome of
the GET.  Mirroring the source exactly: when the content type is present and
not HTML-like the function merely logs "Skipping non-HTML content" — the
`return response.read().decode(...)` that follows runs unconditionally, so
both branches of the conditional below return the body. -/
def _fetch_url (outcome : FetchOutcome) : Option String :=
  match outcome with
  | .success contentType body =>
    if contentType ≠ "" ∧ strHasSub contentType "text/html" = false ∧
        strHasSub contentType "application/xhtml+xml" = false then
      some body
    else some body
  | .failure => none

/-- A stored-snapshot entry that is a JSON dict: either it has a
`"date_start"` key (a full modern record, loaded by `Race(**item)`) or it is
a legacy record with the older field names. -/
structure LegacyItem where
  name : Option String
  date : Option String
  location : Option String
  source_url : Option String
  description : Option String
  entry_requirements : Option String
deriving DecidableEq, Repr

/-- A dict entry of the stored `races` array. -/
inductive RaceItem where
  | modern (r : Race)
  | legacy (it : LegacyItem)
deriving DecidableEq, Repr

/-- `_race_from_payload` (src/lambda_function.py:631-664).  `now` stands for
`datetime.now(timezone.utc).isoformat()`.  Note the function performs no
marathon-name validation on either branch. -/
def _race_from_payload (now : String) : RaceItem → Race
  | .modern r => r
  | .legacy it =>
    let name := it.name.getD ""
    let date_start := it.date
    let location := it.location.getD ""
    let parts := commaParts location
    let city := parts.head?
    let country := if 1 < parts.length then parts.getLast? else none
    { name := name
      date_start := date_start
      date_end := none
      city := city
      region := none
      country := country
      lat := none
      lng := none
      distance_km := mkRat 42195 1000
      website_url := it.source_url.getD ""
      source := _source_from_url (it.source_url.getD "")
      source_event_id := none
      description := it.description.getD ""
      entry_requirements :=
        match it.entry_requirements with
        | some s => if s = "" then "Not specified" else s
        | none => "Not specified"
      last_seen_at := now
      last_verified_at := none
      status := "unknown" }

/-- The error raised by `s3_client.get_object`: the coded error from the
service (`exc.response["Error"]["Code"]`, absent for non-client errors) plus
its string rendering `str(exc)`. -/
structure S3Error where
  code : Option String
  text : String
deriving DecidableEq, Repr

/-- The missing-object test of `load_existing_races`
(src/lambda_function.py:618-619). -/
def isMissingObjectError (e : S3Error) : Bool :=
  (match e.code with
   | some c => c = "NoSuchKey" || c = "404" || c = "NoSuchBucket"
   | none => false) || strHasSub e.text "NoSuchKey"

/-- The parsed body of a stored snapshot: the `payload.get("races", [])`
array, where `none` entries model array elements that are not dicts (these
are skipped by the `isinstance` guard). -/
structure SnapshotDoc where
  races : List (Option RaceItem)
deriving DecidableEq, Repr

/-- `load_existing_races` (src/lambda_function.py:614-628) applied to the
result of `get_object`: a missing-object error yields the empty list, any
other error propagates (re-raise modelled by `Except.error`), and a
successful payload is mapped through `_race_from_payload`. -/
def load_existing_races (now : String) (getResult : Except S3Error SnapshotDoc) :
    Except S3Error (List Race) :=
  match getResult with
  | .error e => if isMissingObjectError e then .ok [] else .error e
  | .ok doc => .ok ((doc.races.filterMap id).map (_race_from_payload now))

/-- The loop of `crawl_sources` (src/lambda_function.py:558-583).  The fetcher
and the extractors are oracle parameters (`fetch` models `_fetch_url`,
`parsePage` models `_parse_jsonld` with the `_parse_fallback_races` fallback,
`extractLinks` models `_extract_links`); the queue, visited set and race
accumulator are explicit.  `visited` is kept as the list of URLs in the order
they were marked visited (each such URL is fetched exactly once, right after
being added), so its `Nodup`/length state the claim's fetch bounds. -/
def crawlLoop (fetch : String → Option String) (parsePage : String → String → List Race)
    (extractLinks : String → String → List String) (maxPages : Nat) :
    List String → List String → List Race → List String × List Race
  | [], visited, races => (visited, races)
  | url :: rest, visited, races =>
    if _hv : visited.length < maxPages then
      if url ∈ visited then
        crawlLoop fetch parsePage extractLinks maxPages rest visited races
      else
        match fetch url with
        | none =>
          crawlLoop fetch parsePage extractLinks maxPages rest (visited ++ [url]) races
        | some html =>
          if html = "" then
            crawlLoop fetch parsePage extractLinks maxPages rest (visited ++ [url]) races
          else
            let domain := (pyUrlparse url).netloc
            let newLinks := (extractLinks html url).filter
              (fun link => !(visited ++ [url]).contains link && _should_visit_link domain link)
            crawlLoop fetch parsePage extractLinks maxPages (rest ++ newLinks)
              (visited ++ [url]) (races ++ parsePage html url)
    else (visited, races)
termination_by queue visited _ => (maxPages - visited.length, queue.length)
decreasing_by
  all_goals first
    | (apply Prod.Lex.right; simp)
    | (apply Prod.Lex.left; simp; omega)

/-- `crawl_sources` (src/lambda_function.py:558-583).  The Python function
returns only the accumulated races (the second component); the visited set at
exit (first component) is exposed for the resource-bound claims. -/
def crawl_sources (fetch : String → Option String)
    (parsePage : String → String → List Race)
    (extractLinks : String → String → List String)
    (seed_urls : List String) (maxPages : Nat) : List String × List Race :=
  crawlLoop fetch parsePage extractLinks maxPages seed_urls [] []

/-! ## Concrete sample data used by witnesses and counterexamples -/

/-- A reference date for concrete runs. -/
def testToday : PyDate := ⟨2024, 1, 1⟩

/-- Builder for concrete race records (defaults chosen like the repository's
own test fixtures). -/
def mkTestRace (name : String) (ds : Option String := none)
    (city : Option String := none) (country : Option String := none)
    (web : String := "") (seen : String := "s0") (ver : Option String := none)
    (descr : String := "") : Race :=
  { name := name, date_start := ds, date_end := none, city := city, region := none,
    country := country, lat := none, lng := none, distance_km := mkRat 42195 1000,
    website_url := web, source := "Example", source_event_id := none,
    description := descr, entry_requirements := "Not specified",
    last_seen_at := seen, last_verified_at := ver, status := "scheduled" }

/-- A kept record that already carries a last-verified timestamp. -/
def c1Kept : Race :=
  mkTestRace "City Marathon" (some "2030-01-01") (some "Boston") (some "US")
    "https://a.example" "s1" (some "2024-05-05T00:00:00+00:00")

/-- An incoming duplicate carrying a newer last-verified timestamp. -/
def c1Incoming : Race :=
  mkTestRace "City Marathon" (some "2030-01-01") (some "Boston") (some "US")
    "https://a.example" "s2" (some "2025-06-06T00:00:00+00:00")

/-- A record whose start date is in the past relative to `testToday`. -/
def pastRace : Race := mkTestRace "Old Marathon" (some "2020-01-01")

/-- A record with a future start date. -/
def futureRace : Race := mkTestRace "Future Marathon" (some "2030-01-01")

/-- A record with no start date. -/
def noDateRace : Race := mkTestRace "A Marathon" none

/-- A record dated exactly at the sort sentinel `9999-12-31`. -/
def maxDateRace : Race := mkTestRace "B Marathon" (some "9999-12-31")

/-- A record whose name is whitespace only (its normalised name is falsy). -/
def blankNameRace : Race :=
  mkTestRace " " (some "2030-01-01") (some "Boston") (some "US") "https://a.example"
    "s0" none "first"

/-- A second, distinct whitespace-named record. -/
def blankNameRace2 : Race :=
  mkTestRace " " (some "2030-01-01") (some "Boston") (some "US") "https://a.example"
    "s0" none "second"

/-- A record whose start date is truthy but unparseable. -/
def tbdDateRace : Race := mkTestRace "City Marathon" (some "TBD")

/-- A working-set record unrelated to `futureRace`. -/
def otherRace : Race := mkTestRace "Other Marathon" (some "2031-05-05")

/-- A legacy snapshot entry whose name is not a marathon name. -/
def legacyFunRun : LegacyItem :=
  { name := some "Fun Run", date := some "2030-03-03", location := some "Oslo, Norway",
    source_url := some "https://runs.example/fun", description := none,
    entry_requirements := none }

/-! ## Shared lemmas about the merge/dedupe machinery -/

/-- Unfolding characterisation of `_is_same_race`: the conjunction of the
name, city, country, domain and date conditions of the source's early-return
chain. -/
theorem isSameRace_true_iff (l r : Race) :
    _is_same_race l r = true ↔
      (truthyS (_normalize_text (some l.name)) = true ∧
       truthyS (_normalize_text (some r.name)) = true ∧
       _normalize_text (some l.name) = _normalize_text (some r.name) ∧
       (truthyS (_normalize_text l.city) = true → truthyS (_normalize_text r.city) = true →
         _normalize_text l.city = _normalize_text r.city) ∧
       (truthyS (_normalize_text l.country) = true →
         truthyS (_normalize_text r.country) = true →
         _normalize_text l.country = _normalize_text r.country) ∧
       (_domain_from_url l.website_url ≠ "" → _domain_from_url r.website_url ≠ "" →
         _domain_from_url l.website_url = _domain_from_url r.website_url) ∧
       (truthyS l.date_start = true → truthyS r.date_start = true →
         _dates_within_one_day l.date_start r.date_start = true)) := by
  unfold _is_same_race
  split_ifs with h1 h2 h3 h4 h5
  · simp only [Bool.false_eq_true, false_iff]
    rintro ⟨c1, c2, c3, -⟩
    rcases h1 with h | h | h <;> simp_all
  · simp only [Bool.false_eq_true, false_iff]
    rintro ⟨-, -, -, c4, -⟩
    exact h2.2.2 (c4 h2.1 h2.2.1)
  · simp only [Bool.false_eq_true, false_iff]
    rintro ⟨-, -, -, -, c5, -⟩
    exact h3.2.2 (c5 h3.1 h3.2.1)
  · simp only [Bool.false_eq_true, false_iff]
    rintro ⟨-, -, -, -, -, c6, -⟩
    exact h4.2.2 (c6 h4.1 h4.2.1)
  · simp only [not_or, ne_eq, not_not, Bool.not_eq_false] at h1
    constructor
    · intro hw
      refine ⟨h1.1, h1.2.1, h1.2.2, ?_, ?_, ?_, fun _ _ => hw⟩
      · intro t1 t2
        by_contra hne
        exact h2 ⟨t1, t2, hne⟩
      · intro t1 t2
        by_contra hne
        exact h3 ⟨t1, t2, hne⟩
      · intro t1 t2
        by_contra hne
        exact h4 ⟨t1, t2, hne⟩
    · rintro ⟨-, -, -, -, -, -, c7⟩
      exact c7 h5.1 h5.2
  · simp only [not_or, ne_eq, not_not, Bool.not_eq_false] at h1
    simp only [true_iff]
    refine ⟨h1.1, h1.2.1, h1.2.2, ?_, ?_, ?_, ?_⟩
    · intro t1 t2
      by_contra hne
      exact h2 ⟨t1, t2, hne⟩
    · intro t1 t2
      by_contra hne
      exact h3 ⟨t1, t2, hne⟩
    · intro t1 t2
      by_contra hne
      exact h4 ⟨t1, t2, hne⟩
    · intro t1 t2
      exact absurd ⟨t1, t2⟩ h5

/-- `_dates_within_one_day` is symmetric. -/
theorem dates_within_one_day_comm (a b : Option String) :
    _dates_within_one_day a b = _dates_within_one_day b a := by
  unfold _dates_within_one_day
  cases ha : _safe_date a <;> cases hb : _safe_date b <;>
    simp [ha, hb, Nat.max_comm, Nat.min_comm]

/-- `_is_same_race` is symmetric. -/
theorem isSameRace_comm (a b : Race) : _is_same_race a b = _is_same_race b a := by
  rw [Bool.eq_iff_iff, isSameRace_true_iff, isSameRace_true_iff]
  constructor
  · rintro ⟨c1, c2, c3, c4, c5, c6, c7⟩
    exact ⟨c2, c1, c3.symm, fun t1 t2 => (c4 t2 t1).symm, fun t1 t2 => (c5 t2 t1).symm,
      fun t1 t2 => (c6 t2 t1).symm,
      fun t1 t2 => by rw [dates_within_one_day_comm]; exact c7 t2 t1⟩
  · rintro ⟨c1, c2, c3, c4, c5, c6, c7⟩
    exact ⟨c2, c1, c3.symm, fun t1 t2 => (c4 t2 t1).symm, fun t1 t2 => (c5 t2 t1).symm,
      fun t1 t2 => (c6 t2 t1).symm,
      fun t1 t2 => by rw [dates_within_one_day_comm]; exact c7 t2 t1⟩

@[simp] theorem mergeRace_name (e r : Race) : (mergeRace e r).name = e.name := rfl

@[simp] theorem mergeRace_date_start (e r : Race) :
    (mergeRace e r).date_start = e.date_start := rfl

@[simp] theorem mergeRace_city (e r : Race) : (mergeRace e r).city = e.city := rfl

@[simp] theorem mergeRace_country (e r : Race) : (mergeRace e r).country = e.country := rfl

theorem mergeRace_website (e r : Race) :
    (mergeRace e r).website_url =
      if e.website_url = "" ∧ r.website_url ≠ "" then r.website_url
      else e.website_url := rfl

/-- Updating the kept side of a non-matching pair cannot make the pair match:
the only field `_is_same_race` reads that `mergeRace` can change is the
website URL, and that changes only when it was blank, in which case the
domain guard was vacuous anyway. -/
theorem isSameRace_of_mergeRace_right (p e r2 : Race)
    (h : _is_same_race p (mergeRace e r2) = true) : _is_same_race p e = true := by
  rw [isSameRace_true_iff] at h ⊢
  simp only [mergeRace_name, mergeRace_city, mergeRace_country, mergeRace_date_start] at h
  obtain ⟨c1, c2, c3, c4, c5, c6, c7⟩ := h
  refine ⟨c1, c2, c3, c4, c5, ?_, c7⟩
  intro hdl hde
  have hwe : e.website_url ≠ "" := fun hw => hde (by rw [hw]; decide)
  have hmw : (mergeRace e r2).website_url = e.website_url := by
    rw [mergeRace_website, if_neg]
    rintro ⟨h1, -⟩
    exact hwe h1
  rw [hmw] at c6
  exact c6 hdl hde

/-- Non-matching records stay non-matching after a merge update on the right. -/
theorem isSameRace_false_mergeRace_right (p e r2 : Race)
    (h : _is_same_race p e = false) : _is_same_race p (mergeRace e r2) = false := by
  rcases Bool.eq_false_or_eq_true (_is_same_race p (mergeRace e r2)) with h2 | h2
  · rw [isSameRace_of_mergeRace_right p e r2 h2] at h
    cases h
  · exact h2

/-- Non-matching records stay non-matching after a merge update on the left. -/
theorem isSameRace_false_mergeRace_left (e r2 p : Race)
    (h : _is_same_race e p = false) : _is_same_race (mergeRace e r2) p = false := by
  rw [isSameRace_comm] at h ⊢
  exact isSameRace_false_mergeRace_right p e r2 h

/-- A record that matched the incoming race still matches it after absorbing
its merge update. -/
theorem isSameRace_mergeRace_left_self (e A : Race) (h : _is_same_race e A = true) :
    _is_same_race (mergeRace e A) A = true := by
  rw [isSameRace_true_iff] at h ⊢
  simp only [mergeRace_name, mergeRace_city, mergeRace_country, mergeRace_date_start]
  obtain ⟨c1, c2, c3, c4, c5, c6, c7⟩ := h
  refine ⟨c1, c2, c3, c4, c5, ?_, c7⟩
  intro hdm hda
  rw [mergeRace_website] at hdm ⊢
  by_cases hcond : e.website_url = "" ∧ A.website_url ≠ ""
  · rw [if_pos hcond]
  · rw [if_neg hcond] at hdm ⊢
    exact c6 hdm hda

/-- Merging a race into itself changes nothing. -/
theorem mergeRace_self (A : Race) : mergeRace A A = A := by
  simp [mergeRace, ite_self]

/-- Absorbing the same incoming race twice is the same as absorbing it once. -/
theorem mergeRace_mergeRace (e A : Race) : mergeRace (mergeRace e A) A = mergeRace e A := by
  unfold mergeRace
  by_cases hv : truthyS A.last_verified_at <;>
    by_cases h1 : e.website_url = "" <;> by_cases h2 : A.website_url = "" <;>
      simp_all

/-- Trichotomy for the Python string comparison. -/
theorem charListLt_trichotomy : ∀ as bs : List Char,
    charListLt as bs = true ∨ as = bs ∨ charListLt bs as = true := by
  intro as
  induction as with
  | nil => intro bs; cases bs <;> simp [charListLt]
  | cons a as ih =>
    intro bs
    cases bs with
    | nil => simp [charListLt]
    | cons b bs =>
      by_cases hab : a < b
      · left; simp [charListLt, hab]
      · by_cases heq : a = b
        · subst heq
          rcases ih bs with h | h | h
          · left; simp [charListLt, h]
          · right; left; rw [h]
          · right; right; simp [charListLt, h]
        · have hba : b < a := by
            rcases lt_trichotomy a b with h | h | h
            · exact absurd h hab
            · exact absurd h heq
            · exact h
          right; right; simp [charListLt, hba]

/-- Transitivity for the Python string comparison. -/
theorem charListLt_trans : ∀ as bs cs : List Char,
    charListLt as bs = true → charListLt bs cs = true → charListLt as cs = true := by
  intro as
  induction as with
  | nil =>
    intro bs cs h1 h2
    cases bs with
    | nil => simp [charListLt] at h1
    | cons b bs =>
      cases cs with
      | nil => simp [charListLt] at h2
      | cons c cs => simp [charListLt]
  | cons a as ih =>
    intro bs cs h1 h2
    cases bs with
    | nil => simp [charListLt] at h1
    | cons b bs =>
      cases cs with
      | nil => simp [charListLt] at h2
      | cons c cs =>
        have e1 : a < b ∨ (a = b ∧ charListLt as bs = true) := by
          by_cases g1 : a < b
          · exact Or.inl g1
          · by_cases g2 : a = b
            · exact Or.inr ⟨g2, by simpa [charListLt, g1, g2] using h1⟩
            · simp [charListLt, g1, g2] at h1
        have e2 : b < c ∨ (b = c ∧ charListLt bs cs = true) := by
          by_cases g3 : b < c
          · exact Or.inl g3
          · by_cases g4 : b = c
            · exact Or.inr ⟨g4, by simpa [charListLt, g3, g4] using h2⟩
            · simp [charListLt, g3, g4] at h2
        rcases e1 with g1 | ⟨g1, r1⟩ <;> rcases e2 with g2 | ⟨g2, r2⟩
        · simp [charListLt, g1.trans g2]
        · subst g2; simp [charListLt, g1]
        · subst g1; simp [charListLt, g2]
        · subst g1; subst g2
          simp [charListLt, ih bs cs r1 r2]

/-- Trichotomy for `strLtB`. -/
theorem strLtB_trichotomy (s t : String) :
    strLtB s t = true ∨ s = t ∨ strLtB t s = true := by
  rcases charListLt_trichotomy s.data t.data with h | h | h
  · exact Or.inl h
  · refine Or.inr (Or.inl ?_)
    cases s; cases t; exact congrArg String.mk h
  · exact Or.inr (Or.inr h)

/-- `raceKeyLE` is total. -/
theorem raceKeyLE_total (a b : Race) : raceKeyLE a b ∨ raceKeyLE b a := by
  unfold raceKeyLE
  rcases strLtB_trichotomy (sortDateKey a) (sortDateKey b) with h | h | h
  · exact Or.inl (Or.inl h)
  · rcases strLtB_trichotomy (pyLower a.name) (pyLower b.name) with h2 | h2 | h2
    · exact Or.inl (Or.inr ⟨h, Or.inl h2⟩)
    · exact Or.inl (Or.inr ⟨h, Or.inr h2⟩)
    · exact Or.inr (Or.inr ⟨h.symm, Or.inl h2⟩)
  · exact Or.inr (Or.inl h)

/-- `raceKeyLE` is transitive. -/
theorem raceKeyLE_trans (a b c : Race) (hab : raceKeyLE a b) (hbc : raceKeyLE b c) :
    raceKeyLE a c := by
  unfold raceKeyLE at *
  unfold strLtB at *
  rcases hab with h1 | ⟨h1, h1'⟩ <;> rcases hbc with h2 | ⟨h2, h2'⟩
  · exact Or.inl (charListLt_trans _ _ _ h1 h2)
  · exact Or.inl (h2 ▸ h1)
  · exact Or.inl (h1 ▸ h2)
  · refine Or.inr ⟨h1.trans h2, ?_⟩
    rcases h1' with h3 | h3 <;> rcases h2' with h4 | h4
    · exact Or.inl (charListLt_trans _ _ _ h3 h4)
    · exact Or.inl (h4 ▸ h3)
    · exact Or.inl (h3 ▸ h4)
    · exact Or.inr (h3.trans h4)

/-- Membership characterisation for `mergeIntoList`: every element of the
result is the incoming race, an untouched old element, or an old element that
absorbed the incoming race. -/
theorem mem_mergeIntoList {x r : Race} :
    ∀ {S : List Race}, x ∈ mergeIntoList S r →
      x = r ∨ ∃ e, e ∈ S ∧ (x = e ∨ x = mergeRace e r) := by
  intro S
  induction S with
  | nil => simp [mergeIntoList]
  | cons e rest ih =>
    intro hx
    unfold mergeIntoList at hx
    by_cases hsame : _is_same_race e r = true
    · rw [if_pos hsame] at hx
      rcases List.mem_cons.mp hx with h | h
      · exact Or.inr ⟨e, List.mem_cons_self e rest, Or.inr h⟩
      · exact Or.inr ⟨x, List.mem_cons_of_mem e h, Or.inl rfl⟩
    · rw [if_neg hsame] at hx
      rcases List.mem_cons.mp hx with h | h
      · exact Or.inr ⟨e, List.mem_cons_self e rest, Or.inl h⟩
      · rcases ih h with h2 | ⟨e2, he2, h3⟩
        · exact Or.inl h2
        · exact Or.inr ⟨e2, List.mem_cons_of_mem e he2, h3⟩

/-- The names present in the working set survive `mergeIntoList` (merges never
change a kept record's name). -/
theorem name_persists_mergeIntoList {u : Race} {S : List Race} (hu : u ∈ S) (r : Race) :
    ∃ v ∈ mergeIntoList S r, v.name = u.name := by
  induction S with
  | nil => cases hu
  | cons e rest ih =>
    unfold mergeIntoList
    by_cases hsame : _is_same_race e r = true
    · rw [if_pos hsame]
      rcases List.mem_cons.mp hu with h | h
      · exact ⟨mergeRace e r, List.mem_cons_self _ _, by rw [mergeRace_name, h]⟩
      · exact ⟨u, List.mem_cons_of_mem _ h, rfl⟩
    · rw [if_neg hsame]
      rcases List.mem_cons.mp hu with h | h
      · exact ⟨e, List.mem_cons_self _ _, by rw [h]⟩
      · obtain ⟨v, hv, hvn⟩ := ih h
        exact ⟨v, List.mem_cons_of_mem _ hv, hvn⟩

/-- After merging `r` into the working set, some kept record has `r`'s
normalised name: either `r` itself was appended or the (unchanged) name of
the record it merged into, which `_is_same_race` forces to normalise equally. -/
theorem normName_represented_mergeIntoList (S : List Race) (r : Race) :
    ∃ v ∈ mergeIntoList S r,
      _normalize_text (some v.name) = _normalize_text (some r.name) := by
  induction S with
  | nil => exact ⟨r, by simp [mergeIntoList], rfl⟩
  | cons e rest ih =>
    unfold mergeIntoList
    by_cases hsame : _is_same_race e r = true
    · rw [if_pos hsame]
      refine ⟨mergeRace e r, List.mem_cons_self _ _, ?_⟩
      rw [mergeRace_name]
      exact ((isSameRace_true_iff e r).mp hsame).2.2.1
    · rw [if_neg hsame]
      obtain ⟨v, hv, hvn⟩ := ih
      exact ⟨v, List.mem_cons_of_mem _ hv, hvn⟩

/-- The date filter is insensitive to merge updates (merges never change
`date_start`). -/
theorem keptFilter_mergeIntoList {today : PyDate} {S : List Race} {r : Race}
    (hS : ∀ e ∈ S, keptByDateFilter e today = true)
    (hr : keptByDateFilter r today = true) :
    ∀ x ∈ mergeIntoList S r, keptByDateFilter x today = true := by
  intro x hx
  rcases mem_mergeIntoList hx with h | ⟨e, he, h | h⟩
  · exact h ▸ hr
  · exact h ▸ hS e he
  · have hsame : keptByDateFilter (mergeRace e r) today = keptByDateFilter e today := by
      unfold keptByDateFilter
      rw [mergeRace_date_start]
    rw [h, hsame]
    exact hS e he

/-- Every record kept by `dedupeLoop` passes the past-date filter, provided
the working set does. -/
theorem dedupeLoop_kept (today : PyDate) :
    ∀ (races acc : List Race), (∀ e ∈ acc, keptByDateFilter e today = true) →
      ∀ x ∈ dedupeLoop today acc races, keptByDateFilter x today = true := by
  intro races
  induction races with
  | nil => intro acc hacc x hx; exact hacc x hx
  | cons r rs ih =>
    intro acc hacc x hx
    unfold dedupeLoop at hx
    cases hd : _safe_date r.date_start with
    | some d =>
      rw [hd] at hx
      dsimp only at hx
      by_cases hlt : dateLt d today = true
      · rw [if_pos hlt] at hx
        exact ih acc hacc x hx
      · rw [if_neg hlt] at hx
        have hr : keptByDateFilter r today = true := by
          unfold keptByDateFilter
          rw [hd]
          simpa using hlt
        exact ih _ (keptFilter_mergeIntoList hacc hr) x hx
    | none =>
      rw [hd] at hx
      dsimp only at hx
      have hr : keptByDateFilter r today = true := by
        unfold keptByDateFilter
        rw [hd]
      exact ih _ (keptFilter_mergeIntoList hacc hr) x hx

/-- Merging preserves pairwise distinctness of the working set. -/
theorem pairwise_mergeIntoList {S : List Race} {r : Race}
    (h : S.Pairwise (fun a b => _is_same_race a b = false)) :
    (mergeIntoList S r).Pairwise (fun a b => _is_same_race a b = false) := by
  induction S with
  | nil => simp [mergeIntoList]
  | cons e rest ih =>
    rw [List.pairwise_cons] at h
    obtain ⟨he, hrest⟩ := h
    unfold mergeIntoList
    by_cases hsame : _is_same_race e r = true
    · rw [if_pos hsame, List.pairwise_cons]
      exact ⟨fun b hb => isSameRace_false_mergeRace_left e r b (he b hb), hrest⟩
    · rw [if_neg hsame, List.pairwise_cons]
      refine ⟨?_, ih hrest⟩
      intro b hb
      rcases mem_mergeIntoList hb with h2 | ⟨e2, he2, h3 | h3⟩
      · rw [h2]
        exact Bool.eq_false_iff.mpr hsame
      · rw [h3]
        exact he e2 he2
      · rw [h3]
        exact isSameRace_false_mergeRace_right e e2 r (he e2 he2)

/-- The working set stays pairwise distinct throughout `dedupeLoop`. -/
theorem dedupeLoop_pairwise (today : PyDate) :
    ∀ (races acc : List Race),
      acc.Pairwise (fun a b => _is_same_race a b = false) →
      (dedupeLoop today acc races).Pairwise (fun a b => _is_same_race a b = false) := by
  intro races
  induction races with
  | nil => intro acc h; exact h
  | cons r rs ih =>
    intro acc h
    unfold dedupeLoop
    cases hd : _safe_date r.date_start with
    | some d =>
      dsimp only
      by_cases hlt : dateLt d today = true
      · rw [if_pos hlt]
        exact ih acc h
      · rw [if_neg hlt]
        exact ih _ (pairwise_mergeIntoList h)
    | none => exact ih _ (pairwise_mergeIntoList h)

/-- Names present in the working set survive the rest of the loop. -/
theorem name_persists_dedupeLoop (today : PyDate) :
    ∀ (races acc : List Race) (u : Race), u ∈ acc →
      ∃ v ∈ dedupeLoop today acc races, v.name = u.name := by
  intro races
  induction races with
  | nil => intro acc u hu; exact ⟨u, hu, rfl⟩
  | cons r rs ih =>
    intro acc u hu
    unfold dedupeLoop
    cases hd : _safe_date r.date_start with
    | some d =>
      dsimp only
      by_cases hlt : dateLt d today = true
      · rw [if_pos hlt]
        exact ih acc u hu
      · rw [if_neg hlt]
        obtain ⟨w, hw, hwn⟩ := name_persists_mergeIntoList hu r
        obtain ⟨v, hv, hvn⟩ := ih _ w hw
        exact ⟨v, hv, hvn.trans hwn⟩
    | none =>
      obtain ⟨w, hw, hwn⟩ := name_persists_mergeIntoList hu r
      obtain ⟨v, hv, hvn⟩ := ih _ w hw
      exact ⟨v, hv, hvn.trans hwn⟩

/-- Every input record that passes the date filter leaves a record with its
normalised name in the loop's result. -/
theorem dedupeLoop_retains_normName (today : PyDate) :
    ∀ (races acc : List Race) (r : Race), r ∈ races →
      keptByDateFilter r today = true →
      ∃ v ∈ dedupeLoop today acc races,
        _normalize_text (some v.name) = _normalize_text (some r.name) := by
  intro races
  induction races with
  | nil => intro acc r hr; cases hr
  | cons r0 rs ih =>
    intro acc r hr hkept
    unfold dedupeLoop
    rcases List.mem_cons.mp hr with he | hr'
    · subst he
      cases hd : _safe_date r.date_start with
      | some d =>
        have hlt : dateLt d today = false := by
          unfold keptByDateFilter at hkept
          rw [hd] at hkept
          simpa using hkept
        dsimp only
        rw [if_neg (by rw [hlt]; exact Bool.false_ne_true)]
        obtain ⟨w, hw, hwn⟩ := normName_represented_mergeIntoList acc r
        obtain ⟨v, hv, hvn⟩ := name_persists_dedupeLoop today rs _ w hw
        refine ⟨v, hv, ?_⟩
        rw [hvn]
        exact hwn
      | none =>
        obtain ⟨w, hw, hwn⟩ := normName_represented_mergeIntoList acc r
        obtain ⟨v, hv, hvn⟩ := name_persists_dedupeLoop today rs _ w hw
        refine ⟨v, hv, ?_⟩
        rw [hvn]
        exact hwn
    · cases hd : _safe_date r0.date_start with
      | some d =>
        dsimp only
        by_cases hlt : dateLt d today = true
        · rw [if_pos hlt]
          exact ih acc r hr' hkept
        · rw [if_neg hlt]
          exact ih _ r hr' hkept
      | none => exact ih _ r hr' hkept

/-- A record matches itself exactly when its normalised name is truthy and
its start date, when truthy, actually parses. -/
theorem isSameRace_self (A : Race)
    (hname : truthyS (_normalize_text (some A.name)) = true)
    (hdate : truthyS A.date_start = true → (_safe_date A.date_start).isSome = true) :
    _is_same_race A A = true := by
  rw [isSameRace_true_iff]
  refine ⟨hname, hname, rfl, fun _ _ => rfl, fun _ _ => rfl, fun _ _ => rfl, ?_⟩
  intro t _
  obtain ⟨d, hd⟩ := Option.isSome_iff_exists.mp (hdate t)
  unfold _dates_within_one_day
  rw [hd]
  simp

/-- Stepping `dedupeLoop` over a record that passes the date filter merges it
into the working set. -/
theorem dedupeLoop_cons_kept (today : PyDate) (r : Race) (acc rs : List Race)
    (h : keptByDateFilter r today = true) :
    dedupeLoop today acc (r :: rs) = dedupeLoop today (mergeIntoList acc r) rs := by
  conv_lhs => rw [dedupeLoop]
  cases hd : _safe_date r.date_start with
  | some d =>
    dsimp only
    unfold keptByDateFilter at h
    rw [hd] at h
    dsimp only at h
    rw [if_neg]
    intro hlt
    rw [hlt] at h
    simp at h
  | none => rfl

/-- Unfolding `mergeIntoList` on a matching head. -/
theorem mergeIntoList_cons_pos {e r : Race} (rest : List Race)
    (hsame : _is_same_race e r = true) :
    mergeIntoList (e :: rest) r = mergeRace e r :: rest := by
  rw [mergeIntoList, if_pos hsame]

/-- Unfolding `mergeIntoList` on a non-matching head. -/
theorem mergeIntoList_cons_neg {e r : Race} (rest : List Race)
    (hsame : ¬ _is_same_race e r = true) :
    mergeIntoList (e :: rest) r = e :: mergeIntoList rest r := by
  rw [mergeIntoList, if_neg hsame]

/-! ## Claims -/

/-- C2: the spec says `_fetch_url` returns the decoded body only for
HTML-like content types and otherwise returns nothing.  The code merely logs
"Skipping non-HTML content" for other content types and then returns the body
unconditionally: at a successful response with content type
`application/json` it still returns the body, contradicting both the claim
and its own log message.  This theorem evaluates the code at that failing
input. -/
theorem c2_fetch_returns_non_html_body :
    strHasSub "application/json" "text/html" = false ∧
    strHasSub "application/json" "application/xhtml+xml" = false ∧
    _fetch_url (FetchOutcome.success "application/json" "not html") = some "not html" ∧
    _fetch_url FetchOutcome.failure = none := by decide

/-- C3 counterexample: the claim says every URL whose path ends in a non-HTML
asset extension (such as `.pdf`) is rejected even when a topical keyword is
present.  The code has no extension check at all: a same-origin `.pdf` link
containing the keyword "race" is accepted. -/
theorem c3_counterexample :
    _should_visit_link "example.com" "https://example.com/race.pdf" = true := by decide

/-- C3 (amended): `_should_visit_link` accepts a link exactly when its scheme
is absent or http/https, its host is absent or equal to the crawl's base
domain, and the URL contains one of the keywords "marathon", "race" or
"calendar"; there is no path-extension filter. -/
theorem c3_link_filter_iff (base_domain href : String) :
    _should_visit_link base_domain href = true ↔
      ((pyUrlparse href).scheme = "" ∨ (pyUrlparse href).scheme = "http" ∨
        (pyUrlparse href).scheme = "https") ∧
      ((pyUrlparse href).netloc = "" ∨ (pyUrlparse href).netloc = base_domain) ∧
      (strHasSub (pyLower href) "marathon" = true ∨
        strHasSub (pyLower href) "race" = true ∨
        strHasSub (pyLower href) "calendar" = true) := by
  unfold _should_visit_link
  split_ifs with h1 h2
  · simp only [Bool.false_eq_true, false_iff]
    rintro ⟨hs, -, -⟩
    rcases hs with h | h | h
    · exact h1.1 h
    · exact h1.2 (by rw [h]; simp)
    · exact h1.2 (by rw [h]; simp)
  · simp only [Bool.false_eq_true, false_iff]
    rintro ⟨-, hn, -⟩
    rcases hn with h | h
    · exact h2.1 h
    · exact h2.2 h
  · push_neg at h1 h2
    simp only [Bool.or_eq_true, or_assoc]
    constructor
    · intro hk
      refine ⟨?_, ?_, hk⟩
      · by_cases hs : (pyUrlparse href).scheme = ""
        · exact Or.inl hs
        · have hmem := h1 hs
          simp only [List.mem_cons, List.mem_singleton, List.not_mem_nil, or_false] at hmem
          rcases hmem with h | h
          · exact Or.inr (Or.inl h)
          · exact Or.inr (Or.inr h)
      · by_cases hn : (pyUrlparse href).netloc = ""
        · exact Or.inl hn
        · exact Or.inr (h2 hn)
    · rintro ⟨-, -, hk⟩
      exact hk

/-- C4 counterexample: the claim says every race record produced by the
pipeline has a name containing "marathon".  Two pipeline paths violate this:
`_race_from_payload` performs no name validation (a stored legacy entry named
"Fun Run" is loaded as-is), and the Ahotu name/location split runs after the
`_is_full_marathon_name` check and can strip "marathon" out of an accepted
name. -/
theorem c4_counterexample :
    (_race_from_payload "2026-10-12T00:00:00+00:00" (RaceItem.legacy legacyFunRun)).name
        = "Fun Run" ∧
    strHasSub (pyLower "Fun Run") "marathon" = false ∧
    _is_full_marathon_name "Event (Marathon, France)" = true ∧
    (_split_location_from_name "Event (Marathon, France)").1 = "Event" ∧
    strHasSub (pyLower "Event") "marathon" = false := by decide

/-- C4 (amended): the marathon-name invariant holds exactly at the
extractors' `_is_full_marathon_name` guard: a name passes it precisely when
its lowercasing contains "marathon", is not bare "marathon" after stripping,
and contains neither "half marathon" nor "half-marathon".  The guard is not
re-checked after Ahotu splitting nor in `_race_from_payload`. -/
theorem c4_full_marathon_name_iff (name : String) :
    _is_full_marathon_name name = true ↔
      (strHasSub (pyLower name) "marathon" = true ∧
       pyStrip (pyLower name) ≠ "marathon" ∧
       strHasSub (pyLower name) "half marathon" = false ∧
       strHasSub (pyLower name) "half-marathon" = false) := by
  unfold _is_full_marathon_name
  split_ifs with h1 h2
  · simp only [Bool.false_eq_true, false_iff]
    rintro ⟨c1, -, -, -⟩
    rw [c1] at h1
    cases h1
  · simp only [Bool.false_eq_true, false_iff]
    rintro ⟨-, c2, -, -⟩
    exact c2 h2
  · simp only [Bool.and_eq_true, Bool.not_eq_true']
    constructor
    · rintro ⟨a, b⟩
      have h1t : strHasSub (pyLower name) "marathon" = true := by simpa using h1
      exact ⟨h1t, h2, a, b⟩
    · rintro ⟨-, -, a, b⟩
      exact ⟨a, b⟩

/-- C9: `load_existing_races` turns a missing-object storage error
(`NoSuchKey`/`404`/`NoSuchBucket` code, or "NoSuchKey" in the error text)
into the empty collection, re-raises every other storage error unchanged, and
on success maps the stored dict entries through `_race_from_payload`. -/
theorem c9_load_missing_object (now : String) (e : S3Error) (doc : SnapshotDoc) :
    load_existing_races now (.error e) =
      (if isMissingObjectError e then Except.ok [] else Except.error e) ∧
    load_existing_races now (.ok doc) =
      Except.ok ((doc.races.filterMap id).map (_race_from_payload now)) :=
  ⟨rfl, rfl⟩

/-- C1 counterexample: the claim says a kept record keeps its own
last-verified timestamp unless the incoming one is present and the kept
record lacked one.  Here the kept record already has a last-verified
timestamp, yet after the merge the stored record carries the incoming one. -/
theorem c1_counterexample :
    c1Kept.last_verified_at = some "2024-05-05T00:00:00+00:00" ∧
    c1Incoming.last_verified_at = some "2025-06-06T00:00:00+00:00" ∧
    (_dedupe_and_filter [c1Kept, c1Incoming] testToday).map Race.last_verified_at =
      [some "2025-06-06T00:00:00+00:00"] := by decide

/-- C1 (amended): when `_dedupe_and_filter` merges an incoming race into an
already-kept matching record, the kept record absorbs the incoming last-seen
timestamp, adopts the incoming last-verified timestamp whenever it is
present (keeping its own only when the incoming one is absent or blank), and
fills its website URL only if it was previously blank. -/
theorem c1_merge_absorbs_fields (e r : Race) (today : PyDate)
    (hsame : _is_same_race e r = true)
    (he : keptByDateFilter e today = true) (hr : keptByDateFilter r today = true) :
    _dedupe_and_filter [e, r] today = [mergeRace e r] ∧
    (mergeRace e r).last_seen_at = r.last_seen_at ∧
    (mergeRace e r).last_verified_at =
      (if truthyS r.last_verified_at then r.last_verified_at else e.last_verified_at) ∧
    (mergeRace e r).website_url =
      (if e.website_url = "" ∧ r.website_url ≠ "" then r.website_url
       else e.website_url) := by
  refine ⟨?_, rfl, rfl, rfl⟩
  unfold _dedupe_and_filter
  rw [dedupeLoop_cons_kept today e [] [r] he]
  rw [show mergeIntoList [] e = [e] from rfl]
  rw [dedupeLoop_cons_kept today r [e] [] hr]
  rw [show dedupeLoop today (mergeIntoList [e] r) [] = mergeIntoList [e] r from rfl]
  unfold mergeIntoList
  rw [if_pos hsame]
  simp [List.insertionSort]

/-- C1 witness: the amended merge behaviour at a concrete matching pair. -/
theorem c1_merge_absorbs_fields_witness :
    _dedupe_and_filter [c1Kept, c1Incoming] testToday = [mergeRace c1Kept c1Incoming] ∧
    (mergeRace c1Kept c1Incoming).last_seen_at = c1Incoming.last_seen_at ∧
    (mergeRace c1Kept c1Incoming).last_verified_at =
      (if truthyS c1Incoming.last_verified_at then c1Incoming.last_verified_at
       else c1Kept.last_verified_at) ∧
    (mergeRace c1Kept c1Incoming).website_url =
      (if c1Kept.website_url = "" ∧ c1Incoming.website_url ≠ ""
       then c1Incoming.website_url else c1Kept.website_url) :=
  c1_merge_absorbs_fields c1Kept c1Incoming testToday (by decide) (by decide) (by decide)

/-- C5: `_dedupe_and_filter` never emits a record whose start date parses to
a calendar date strictly before the reference date; and every input record
with an absent (or unparseable, hence `_safe_date`-`none`) start date leaves
a record with its normalised name in the output (it is retained, possibly
merged into an equivalent kept record, never dropped by the date filter). -/
theorem c5_no_past_dates_dateless_retained (races : List Race) (today : PyDate) :
    (∀ x ∈ _dedupe_and_filter races today, ∀ d, _safe_date x.date_start = some d →
      dateLt d today = false) ∧
    (∀ r ∈ races, _safe_date r.date_start = none →
      ∃ v ∈ _dedupe_and_filter races today,
        _normalize_text (some v.name) = _normalize_text (some r.name)) := by
  constructor
  · intro x hx d hd
    have hmem : x ∈ dedupeLoop today [] races :=
      (List.perm_insertionSort raceKeyLE _).mem_iff.mp hx
    have hkept := dedupeLoop_kept today races [] (by intro e he; cases he) x hmem
    unfold keptByDateFilter at hkept
    rw [hd] at hkept
    dsimp only at hkept
    simpa using hkept
  · intro r hr hd
    have hkept : keptByDateFilter r today = true := by
      unfold keptByDateFilter
      rw [hd]
    obtain ⟨v, hv, hvn⟩ := dedupeLoop_retains_normName today races [] r hr hkept
    exact ⟨v, (List.perm_insertionSort raceKeyLE _).mem_iff.mpr hv, hvn⟩

/-- C5 witness: at a concrete run, the surviving future-dated record's date
is not before the reference date, and the dateless record is retained. -/
theorem c5_witness :
    dateLt ⟨2030, 1, 1⟩ testToday = false ∧
    (∃ v ∈ _dedupe_and_filter [pastRace, noDateRace] testToday,
      _normalize_text (some v.name) = _normalize_text (some noDateRace.name)) :=
  ⟨(c5_no_past_dates_dateless_retained [pastRace, futureRace] testToday).1
      futureRace (by decide) ⟨2030, 1, 1⟩ (by decide),
   (c5_no_past_dates_dateless_retained [pastRace, noDateRace] testToday).2
      noDateRace (by decide) (by decide)⟩

/-- C6 counterexample: the claim quantifies over every record, but a record
whose name is all whitespace (normalised name falsy), or whose start date is
truthy yet unparseable, never satisfies `_is_same_race` with itself, so
merging it twice into an empty working set yields two records, not one. -/
theorem c6_counterexample :
    mergeIntoList (mergeIntoList [] blankNameRace) blankNameRace =
      [blankNameRace, blankNameRace] ∧
    mergeIntoList [] blankNameRace = [blankNameRace] ∧
    mergeIntoList (mergeIntoList [] tbdDateRace) tbdDateRace =
      [tbdDateRace, tbdDateRace] ∧
    mergeIntoList [] tbdDateRace = [tbdDateRace] := by decide

/-- C6 (amended): for every record `A` whose normalised name is non-blank
and whose start date, when truthy, actually parses, folding `A` into any
working set twice gives the same working set as folding it once. -/
theorem c6_merge_idempotent (A : Race)
    (hname : truthyS (_normalize_text (some A.name)) = true)
    (hdate : truthyS A.date_start = true → (_safe_date A.date_start).isSome = true)
    (S : List Race) :
    mergeIntoList (mergeIntoList S A) A = mergeIntoList S A := by
  induction S with
  | nil =>
    show mergeIntoList [A] A = [A]
    unfold mergeIntoList
    rw [if_pos (isSameRace_self A hname hdate), mergeRace_self]
  | cons e rest ih =>
    by_cases hsame : _is_same_race e A = true
    · rw [mergeIntoList_cons_pos rest hsame,
        mergeIntoList_cons_pos rest (isSameRace_mergeRace_left_self e A hsame),
        mergeRace_mergeRace]
    · rw [mergeIntoList_cons_neg rest hsame,
        mergeIntoList_cons_neg (mergeIntoList rest A) hsame, ih]

/-- C6 witness: idempotence at a concrete record and working set. -/
theorem c6_merge_idempotent_witness :
    mergeIntoList (mergeIntoList [otherRace] futureRace) futureRace =
      mergeIntoList [otherRace] futureRace :=
  c6_merge_idempotent futureRace (by decide) (by decide) [otherRace]

/-- C7 counterexample: the claim says every record lacking a date sorts after
all records that have one.  A record lacking a date receives the sort key
"9999-12-31", so it ties with a record actually dated 9999-12-31 and the
name tiebreak can place the dateless record first. -/
theorem c7_counterexample :
    noDateRace.date_start = none ∧
    maxDateRace.date_start = some "9999-12-31" ∧
    _safe_date maxDateRace.date_start = some ⟨9999, 12, 31⟩ ∧
    (_dedupe_and_filter [maxDateRace, noDateRace] testToday).map Race.name =
      [noDateRace.name, maxDateRace.name] := by decide

/-- C7 (amended): the list returned by `_dedupe_and_filter` is sorted by the
lexicographic key (raw start-date string with "9999-12-31" substituted for an
absent or blank date, then the lowercased name).  In particular records
lacking a date sort after every record whose date string is strictly below
the sentinel, but only tie with records dated "9999-12-31" (or with
unparseable date strings comparing above it). -/
theorem c7_output_sorted (races : List Race) (today : PyDate) :
    List.Sorted raceKeyLE (_dedupe_and_filter races today) := by
  haveI : IsTotal Race raceKeyLE := ⟨raceKeyLE_total⟩
  haveI : IsTrans Race raceKeyLE := ⟨raceKeyLE_trans⟩
  exact List.sorted_insertionSort raceKeyLE _

/-- C10: no two records in the output of `_dedupe_and_filter` are considered
the same race by `_is_same_race`. -/
theorem c10_output_pairwise_distinct (races : List Race) (today : PyDate) :
    (_dedupe_and_filter races today).Pairwise
      (fun a b => _is_same_race a b = false) := by
  have hsym : ∀ {x y : Race}, _is_same_race x y = false → _is_same_race y x = false := by
    intro x y h
    rw [isSameRace_comm y x]
    exact h
  have hperm := List.perm_insertionSort raceKeyLE (dedupeLoop today [] races)
  exact (hperm.pairwise_iff hsym).mpr (dedupeLoop_pairwise today races [] List.Pairwise.nil)

/-- C10 counterexample (for the claim's elaboration): two distinct
whitespace-named records both survive — they are not `_is_same_race`-equal —
yet they do not differ in normalised name, nor in any both-specified
city/country/website-domain, nor by more than a day in start date, so the
claim's characterisation of "distinct output records" fails on them. -/
theorem c10_counterexample :
    _dedupe_and_filter [blankNameRace, blankNameRace2] testToday =
      [blankNameRace, blankNameRace2] ∧
    blankNameRace ≠ blankNameRace2 ∧
    _normalize_text (some blankNameRace.name) =
      _normalize_text (some blankNameRace2.name) ∧
    blankNameRace.city = blankNameRace2.city ∧
    blankNameRace.country = blankNameRace2.country ∧
    blankNameRace.website_url = blankNameRace2.website_url ∧
    blankNameRace.date_start = blankNameRace2.date_start := by decide

/-- C8: for every fetcher, extractor and link-extractor behaviour, every seed
list and every page cap, `crawl_sources` terminates (it is a total function,
defined by well-founded recursion on the pair (remaining page budget, queue
length)), marks each URL visited — and hence fetches it — at most once, and
visits at most `maxPages` URLs in total. -/
theorem c8_crawl_fetches_bounded (fetch : String → Option String)
    (parsePage : String → String → List Race)
    (extractLinks : String → String → List String)
    (seeds : List String) (maxPages : Nat) :
    (crawl_sources fetch parsePage extractLinks seeds maxPages).1.Nodup ∧
    (crawl_sources fetch parsePage extractLinks seeds maxPages).1.length ≤ maxPages := by
  have aux : ∀ (k : Nat) (queue visited : List String) (races : List Race),
      maxPages - visited.length ≤ k → visited.Nodup → visited.length ≤ maxPages →
      (crawlLoop fetch parsePage extractLinks maxPages queue visited races).1.Nodup ∧
      (crawlLoop fetch parsePage extractLinks maxPages queue visited races).1.length ≤
        maxPages := by
    intro k
    induction k with
    | zero =>
      intro queue visited races hk hnd hle
      have hstop : ¬ visited.length < maxPages := by omega
      cases queue with
      | nil =>
        rw [crawlLoop]
        exact ⟨hnd, hle⟩
      | cons url rest =>
        rw [crawlLoop, dif_neg hstop]
        exact ⟨hnd, hle⟩
    | succ k ihk =>
      intro queue visited races hk hnd hle
      induction queue with
      | nil =>
        rw [crawlLoop]
        exact ⟨hnd, hle⟩
      | cons url rest ihq =>
        rw [crawlLoop]
        by_cases hv : visited.length < maxPages
        · rw [dif_pos hv]
          by_cases hmem : url ∈ visited
          · rw [if_pos hmem]
            exact ihq
          · rw [if_neg hmem]
            have hnd2 : (visited ++ [url]).Nodup := by
              simp [List.nodup_append, hnd, hmem]
            have hle2 : (visited ++ [url]).length ≤ maxPages := by
              simp only [List.length_append, List.length_singleton]
              omega
            have hk2 : maxPages - (visited ++ [url]).length ≤ k := by
              simp only [List.length_append, List.length_singleton]
              omega
            cases hf : fetch url with
            | none => exact ihk rest _ races hk2 hnd2 hle2
            | some html =>
              dsimp only
              by_cases hh : html = ""
              · rw [if_pos hh]
                exact ihk rest _ races hk2 hnd2 hle2
              · rw [if_neg hh]
                exact ihk _ _ _ hk2 hnd2 hle2
        · rw [dif_neg hv]
          exact ⟨hnd, hle⟩
  exact aux maxPages seeds [] [] (by simp) List.nodup_nil (by simp)
